import Mathlib

/-!
Verification of the request-routing and rewriting engine of the
simple-reverse-proxy repository (src/main.go), via a shallow embedding of
its pure decision logic into Lean. Strings are modelled as Lean strings
(lists of characters); Go byte-level operations on UTF-8 text coincide with
the character-level model on the inputs of interest.
-/

/-- Model of Go strings.HasPrefix on character lists: hasPrefixList s pat
is true when pat is a prefix of s. Recursion is on the pattern. -/
def hasPrefixList (s pat : List Char) : Bool :=
  match pat with
  | [] => true
  | p :: ps =>
    match s with
    | [] => false
    | c :: cs => (c = p) && hasPrefixList cs ps

/-- Model of Go strings.Contains on character lists: containsList s sub is
true when sub occurs contiguously inside s (the empty list occurs in
every list, as in Go). -/
def containsList (s sub : List Char) : Bool :=
  hasPrefixList s sub ||
    (match s with
     | [] => false
     | _ :: rest => containsList rest sub)

/-- Model of Go strings.Contains: strContains s sub is true when sub is a
substring of s. -/
def strContains (s sub : String) : Bool :=
  containsList s.data sub.data

/-- Model of Go strings.HasPrefix: strStartsWith s pat is true when s
starts with pat. -/
def strStartsWith (s pat : String) : Bool :=
  hasPrefixList s.data pat.data

/-- Embedding of the Go struct ProxyRule of src/main.go: a domain-match
pattern, an upstream proxy URL and optional credentials (empty strings
stand for the absent XML attributes). -/
structure ProxyRule where
  domain : String
  proxyURL : String
  username : String
  password : String
deriving DecidableEq, Repr

/-- Embedding of the Go struct CustomHeader of src/main.go. The source
field PathPrefix is rendered as pathPrefixStr. -/
structure CustomHeader where
  domain : String
  pathPrefixStr : String
  headersPath : String
deriving DecidableEq, Repr

/-- Embedding of the Go struct ProxyConfig of src/main.go (the XML name
field is irrelevant to the routing logic and omitted). -/
structure ProxyConfig where
  defaultProxy : ProxyRule
  proxyRules : List ProxyRule
  directDomains : List String
  customHeaders : List CustomHeader
deriving DecidableEq, Repr

/-- Embedding of isDirect of src/main.go: the host is direct when it
contains some entry of directDomains as a substring. -/
def isDirect (cfg : ProxyConfig) (domain : String) : Bool :=
  cfg.directDomains.any (fun d => strContains domain d)

/-- Embedding of findProxyRule of src/main.go: direct hosts get no rule;
otherwise the first rule whose domain pattern is contained in the host is
returned; otherwise the default proxy when its URL is nonempty; otherwise
no rule (direct). -/
def findProxyRule (cfg : ProxyConfig) (domain : String) : Option ProxyRule :=
  if isDirect cfg domain then none
  else
    match cfg.proxyRules.find? (fun rule => strContains domain rule.domain) with
    | some rule => some rule
    | none =>
      if cfg.defaultProxy.proxyURL ≠ "" then some cfg.defaultProxy else none

/-- Characterization of the prefix test as an existential split. -/
theorem hasPrefixList_iff (pat s : List Char) :
    hasPrefixList s pat = true ↔ ∃ t, s = pat ++ t := by
  induction pat generalizing s with
  | nil => simp [hasPrefixList]
  | cons p ps ih =>
    cases s with
    | nil => simp [hasPrefixList]
    | cons c cs =>
      simp only [hasPrefixList, Bool.and_eq_true, decide_eq_true_eq, ih,
        List.cons_append, List.cons.injEq]
      constructor
      · rintro ⟨rfl, t, rfl⟩
        exact ⟨t, rfl, rfl⟩
      · rintro ⟨t, rfl, rfl⟩
        exact ⟨rfl, t, rfl⟩

/-- A list always starts with the first summand of an append. -/
theorem hasPrefixList_append (pre t : List Char) :
    hasPrefixList (pre ++ t) pre = true :=
  (hasPrefixList_iff pre (pre ++ t)).mpr ⟨t, rfl⟩

/-- The first element of a list satisfying a predicate, in the append-split
formulation: if everything before b fails the predicate and b passes it,
the scan finds b. -/
theorem find_first_append {α : Type} (p : α → Bool) (pre post : List α) (b : α)
    (hpre : ∀ x ∈ pre, p x = false) (hb : p b = true) :
    (pre ++ b :: post).find? p = some b := by
  induction pre with
  | nil => simpa using List.find?_cons_of_pos post hb
  | cons a as ih =>
    have ha : p a = false := hpre a (by simp)
    rw [List.cons_append, List.find?_cons_of_neg _ (by simp [ha])]
    exact ih (fun x hx => hpre x (by simp [hx]))

/-- An empty pattern is contained in every string. -/
theorem strContains_empty (s : String) : strContains s "" = true := by
  unfold strContains
  unfold containsList
  simp [hasPrefixList]

/-- Claim C1: findProxyRule is a pure function of the host and the routing
table following the decision order of src/main.go with first match
winning: a host containing a directDomains entry is Direct (none); else
the first rule in list order whose domain pattern is a substring of the
host is returned; else the default proxy when its URL is nonempty; else
Direct. Matching is substring containment (it accepts non-exact,
non-suffix occurrences). -/
theorem claim1_proxyResolver (cfg : ProxyConfig) (host : String) :
    ((∃ d ∈ cfg.directDomains, strContains host d = true) →
        findProxyRule cfg host = none)
    ∧ (∀ pre rule post,
        cfg.proxyRules = pre ++ rule :: post →
        (∀ d ∈ cfg.directDomains, strContains host d = false) →
        (∀ r ∈ pre, strContains host r.domain = false) →
        strContains host rule.domain = true →
        findProxyRule cfg host = some rule)
    ∧ ((∀ d ∈ cfg.directDomains, strContains host d = false) →
        (∀ r ∈ cfg.proxyRules, strContains host r.domain = false) →
        cfg.defaultProxy.proxyURL ≠ "" →
        findProxyRule cfg host = some cfg.defaultProxy)
    ∧ ((∀ d ∈ cfg.directDomains, strContains host d = false) →
        (∀ r ∈ cfg.proxyRules, strContains host r.domain = false) →
        cfg.defaultProxy.proxyURL = "" →
        findProxyRule cfg host = none)
    ∧ (strContains "www.baidu.com" "baidu.com" = true
        ∧ strContains "notbaidu.com.evil.com" "baidu.com" = true) := by
  refine ⟨?_, ?_, ?_, ?_, by decide⟩
  · intro h
    have hd : isDirect cfg host = true := by
      unfold isDirect
      exact List.any_eq_true.mpr h
    simp [findProxyRule, hd]
  · intro pre rule post hsplit hdir hpre hrule
    have hd : isDirect cfg host = false := by
      unfold isDirect
      exact List.any_eq_false.mpr (fun d hdm => by simp [hdir d hdm])
    have hfind : cfg.proxyRules.find? (fun r => strContains host r.domain) = some rule := by
      rw [hsplit]
      exact find_first_append _ _ _ _ hpre hrule
    simp [findProxyRule, hd, hfind]
  · intro hdir hrules hdef
    have hd : isDirect cfg host = false := by
      unfold isDirect
      exact List.any_eq_false.mpr (fun d hdm => by simp [hdir d hdm])
    have hfind : cfg.proxyRules.find? (fun r => strContains host r.domain) = none :=
      List.find?_eq_none.mpr (fun r hr => by simp [hrules r hr])
    simp [findProxyRule, hd, hfind, hdef]
  · intro hdir hrules hdef
    have hd : isDirect cfg host = false := by
      unfold isDirect
      exact List.any_eq_false.mpr (fun d hdm => by simp [hdir d hdm])
    have hfind : cfg.proxyRules.find? (fun r => strContains host r.domain) = none :=
      List.find?_eq_none.mpr (fun r hr => by simp [hrules r hr])
    simp [findProxyRule, hd, hfind, hdef]

/-- Witness for C1: with directDomains containing example.com, rules
foo.com then ar.com and a default proxy, the host bar.com skips the
non-matching first rule and resolves to the second. -/
theorem claim1_proxyResolver_witness :
    findProxyRule
      ⟨⟨"", "pB", "", ""⟩, [⟨"foo.com", "pA", "", ""⟩, ⟨"ar.com", "pC", "", ""⟩],
        ["example.com"], []⟩ "bar.com" = some ⟨"ar.com", "pC", "", ""⟩ :=
  (claim1_proxyResolver _ _).2.1 [⟨"foo.com", "pA", "", ""⟩] ⟨"ar.com", "pC", "", ""⟩ []
    rfl (by decide) (by decide) (by decide)

/-- Embedding of the first repair of fixTargetURL of src/main.go: the
anchored regular expression (https?:/)([^/]) replaced by the same with a
doubled slash. The match arms spell out the two alternatives of the
scheme group; the bound character c is the single character matched by
the non-slash class. -/
def insertSlash : List Char → List Char
  | 'h' :: 't' :: 't' :: 'p' :: ':' :: '/' :: c :: rest =>
    if c = '/' then 'h' :: 't' :: 't' :: 'p' :: ':' :: '/' :: c :: rest
    else 'h' :: 't' :: 't' :: 'p' :: ':' :: '/' :: '/' :: c :: rest
  | 'h' :: 't' :: 't' :: 'p' :: 's' :: ':' :: '/' :: c :: rest =>
    if c = '/' then 'h' :: 't' :: 't' :: 'p' :: 's' :: ':' :: '/' :: c :: rest
    else 'h' :: 't' :: 't' :: 'p' :: 's' :: ':' :: '/' :: '/' :: c :: rest
  | p => p

/-- Embedding of fixTargetURL of src/main.go: apply the slash repair,
then prepend the http scheme when the result does not already start with
http:// or https:// (the www branch of the source performs the same
prepend as its else branch). -/
def fixTargetURL (path : String) : String :=
  if strStartsWith (String.mk (insertSlash path.data)) "http://" = false
      ∧ strStartsWith (String.mk (insertSlash path.data)) "https://" = false then
    "http://" ++ String.mk (insertSlash path.data)
  else String.mk (insertSlash path.data)

/-- The first repair as worded by the spec: when the candidate starts
with a scheme, a colon and a single slash followed by something (so not
a double slash), insert the missing slash. -/
def specRepairSlash (p : List Char) : List Char :=
  if hasPrefixList p ['h', 't', 't', 'p', ':', '/'] = true
      ∧ hasPrefixList p ['h', 't', 't', 'p', ':', '/', '/'] = false
      ∧ 6 < p.length then
    ['h', 't', 't', 'p', ':', '/', '/'] ++ p.drop 6
  else if hasPrefixList p ['h', 't', 't', 'p', 's', ':', '/'] = true
      ∧ hasPrefixList p ['h', 't', 't', 'p', 's', ':', '/', '/'] = false
      ∧ 7 < p.length then
    ['h', 't', 't', 'p', 's', ':', '/', '/'] ++ p.drop 7
  else p

/-- URL normalization as worded by the spec: the slash repair followed by
an unconditional http:// prepend whenever the candidate still lacks an
http or https scheme. -/
def specNormalizeURL (s : String) : String :=
  if strStartsWith (String.mk (specRepairSlash s.data)) "http://" = false
      ∧ strStartsWith (String.mk (specRepairSlash s.data)) "https://" = false then
    "http://" ++ String.mk (specRepairSlash s.data)
  else String.mk (specRepairSlash s.data)

/-- The regular-expression repair agrees with its specification-level
description. -/
theorem insertSlash_eq_spec (p : List Char) : insertSlash p = specRepairSlash p := by
  unfold insertSlash
  split
  · rename_i c rest
    by_cases hc : c = '/'
    · simp [specRepairSlash, hasPrefixList, hc]
    · simp [specRepairSlash, hasPrefixList, hc]
  · rename_i c rest
    by_cases hc : c = '/'
    · simp [specRepairSlash, hasPrefixList, hc]
    · simp [specRepairSlash, hasPrefixList, hc]
  · rename_i h1 h2
    rw [specRepairSlash, if_neg, if_neg]
    · rintro ⟨hpre, hnot, hlen⟩
      obtain ⟨t, rfl⟩ := (hasPrefixList_iff _ _).mp hpre
      cases t with
      | nil => simp at hlen
      | cons c rest =>
        simp [hasPrefixList] at hnot
        exact h2 c rest rfl
    · rintro ⟨hpre, hnot, hlen⟩
      obtain ⟨t, rfl⟩ := (hasPrefixList_iff _ _).mp hpre
      cases t with
      | nil => simp at hlen
      | cons c rest =>
        simp [hasPrefixList] at hnot
        exact h1 c rest rfl

/-- The character data of the http scheme literal. -/
theorem http_data : "http://".data = ['h', 't', 't', 'p', ':', '/', '/'] := by decide

/-- The character data of the https scheme literal. -/
theorem https_data : "https://".data = ['h', 't', 't', 'p', 's', ':', '/', '/'] := by decide

/-- Rebuilding a string from its character data is the identity. -/
theorem string_mk_data (s : String) : String.mk s.data = s := rfl

/-- The slash repair leaves any string already carrying a full http:// or
https:// scheme untouched. -/
theorem insertSlash_of_scheme (s : List Char)
    (h : hasPrefixList s ['h', 't', 't', 'p', ':', '/', '/'] = true
      ∨ hasPrefixList s ['h', 't', 't', 'p', 's', ':', '/', '/'] = true) :
    insertSlash s = s := by
  rcases h with h | h
  · obtain ⟨t, rfl⟩ := (hasPrefixList_iff _ _).mp h
    simp [insertSlash]
  · obtain ⟨t, rfl⟩ := (hasPrefixList_iff _ _).mp h
    simp [insertSlash]

/-- Every output of fixTargetURL starts with http:// or https://. -/
theorem fixTargetURL_scheme (s : String) :
    strStartsWith (fixTargetURL s) "http://" = true
    ∨ strStartsWith (fixTargetURL s) "https://" = true := by
  unfold fixTargetURL
  split
  · left
    unfold strStartsWith
    rw [String.data_append]
    rw [hasPrefixList_iff]
    exact ⟨(String.mk (insertSlash s.data)).data, rfl⟩
  · rename_i hcond
    rcases Decidable.not_and_iff_or_not.mp hcond with h | h
    · left
      simpa using h
    · right
      simpa using h

/-- Strings already carrying an http:// or https:// scheme are fixed
points of fixTargetURL. -/
theorem fixTargetURL_fixed (s : String)
    (h : strStartsWith s "http://" = true ∨ strStartsWith s "https://" = true) :
    fixTargetURL s = s := by
  have hins : insertSlash s.data = s.data := by
    apply insertSlash_of_scheme
    rcases h with h | h
    · left
      unfold strStartsWith at h
      rw [http_data] at h
      exact h
    · right
      unfold strStartsWith at h
      rw [https_data] at h
      exact h
  unfold fixTargetURL
  rw [hins, string_mk_data]
  rcases h with h | h
  · rw [if_neg]
    rintro ⟨h1, _⟩
    rw [h] at h1
    exact Bool.true_eq_false.mp h1
  · rw [if_neg]
    rintro ⟨_, h2⟩
    rw [h] at h2
    exact Bool.true_eq_false.mp h2

/-- Claim C5: fixTargetURL performs exactly the two repairs of the spec in
order: the missing-slash insertion for scheme-colon-single-slash-nonslash
candidates, then an unconditional http:// prepend for candidates lacking
an http:// or https:// scheme (including www-prefixed ones), as
illustrated by the spec examples. -/
theorem claim5_urlNormalizerRepairs (s : String) :
    fixTargetURL s = specNormalizeURL s
    ∧ fixTargetURL "https:/example.com/x" = "https://example.com/x"
    ∧ fixTargetURL "www.example.com" = "http://www.example.com"
    ∧ fixTargetURL "example.com" = "http://example.com" := by
  refine ⟨?_, by decide, by decide, by decide⟩
  unfold fixTargetURL specNormalizeURL
  rw [insertSlash_eq_spec]

/-- Claim C9: fixTargetURL is idempotent: every output already begins
with http:// or https://, and such strings are fixed points of the
normalization, so normalizing twice equals normalizing once. -/
theorem claim9_fixTargetURLIdempotent (s : String) :
    fixTargetURL (fixTargetURL s) = fixTargetURL s
    ∧ (strStartsWith (fixTargetURL s) "http://" = true
        ∨ strStartsWith (fixTargetURL s) "https://" = true)
    ∧ ((strStartsWith s "http://" = true ∨ strStartsWith s "https://" = true) →
        fixTargetURL s = s) :=
  ⟨fixTargetURL_fixed _ (fixTargetURL_scheme s), fixTargetURL_scheme s,
    fun h => fixTargetURL_fixed s h⟩

/-- Witness for C9: a string already carrying a scheme is a fixed point. -/
theorem claim9_fixTargetURLIdempotent_witness :
    fixTargetURL "http://a.com/b" = "http://a.com/b" :=
  (claim9_fixTargetURLIdempotent "http://a.com/b").2.2 (Or.inl (by decide))

/-- A string starting with a nonempty pattern is nonempty. -/
theorem strStartsWith_ne_empty (s pat : String) (hpat : pat.data ≠ [])
    (h : strStartsWith s pat = true) : s ≠ "" := by
  intro heq
  unfold strStartsWith at h
  obtain ⟨t, ht⟩ := (hasPrefixList_iff _ _).mp h
  rw [heq] at ht
  have h0 : ([] : List Char) = pat.data ++ t := ht
  exact hpat (List.append_eq_nil.mp h0.symm).1

/-- Embedding of handleRedirectURL of src/main.go: the empty location
maps to itself, a location without an absolute http or https scheme is
returned unchanged, and an absolute one is re-embedded behind the proxy
address (the Sprintf with the http scheme, server host, colon, decimal
port and slash). -/
def handleRedirectURL (sHost : String) (sPort : Nat) (redirectURL : String) : String :=
  if redirectURL = "" then ""
  else if strStartsWith redirectURL "http://" = false
      ∧ strStartsWith redirectURL "https://" = false then redirectURL
  else "http://" ++ sHost ++ ":" ++ toString sPort ++ "/" ++ redirectURL

/-- Embedding of the redirect block of proxyHandler in src/main.go: for a
status in [300, 400) with a present (nonempty) Location value, the header
is set to the rewritten location; otherwise the value is untouched. The
result is the final value of the Location header (the empty string stands
for an absent header, as with Header.Get). -/
def rewriteLocation (sHost : String) (sPort : Nat) (statusCode : Nat) (location : String) :
    String :=
  if 300 ≤ statusCode ∧ statusCode < 400 ∧ location ≠ "" then
    handleRedirectURL sHost sPort location
  else location

/-- Claim C3: the Location header is rewritten exactly when the status is
in [300, 400) and the location is a nonempty absolute URL starting with
http:// or https://, in which case it becomes the proxy address followed
by a slash and the original location; relative or absent locations, and
responses outside [300, 400), keep their Location value unchanged. -/
theorem claim3_redirectRewriter (sHost : String) (sPort : Nat) (status : Nat) (loc : String) :
    rewriteLocation sHost sPort status loc =
      if 300 ≤ status ∧ status < 400
          ∧ (strStartsWith loc "http://" = true ∨ strStartsWith loc "https://" = true) then
        "http://" ++ sHost ++ ":" ++ toString sPort ++ "/" ++ loc
      else loc := by
  have hne : ∀ l : String,
      (strStartsWith l "http://" = true ∨ strStartsWith l "https://" = true) → l ≠ "" := by
    intro l hl
    rcases hl with h | h
    · exact strStartsWith_ne_empty l "http://" (by decide) h
    · exact strStartsWith_ne_empty l "https://" (by decide) h
  unfold rewriteLocation handleRedirectURL
  split_ifs <;> simp_all

/-- Model of the control-character scan of Go net/url.Parse: a URL
containing a byte below space, or the delete byte, is rejected. -/
def hasCTL (s : String) : Bool := s.data.any (fun c => c.val < 32 ∨ c.val = 127)

/-- The value of a hexadecimal digit, as in Go net/url unhex. -/
def hexVal (c : Char) : Option Nat :=
  if '0' ≤ c ∧ c ≤ '9' then some (c.toNat - '0'.toNat)
  else if 'a' ≤ c ∧ c ≤ 'f' then some (c.toNat - 'a'.toNat + 10)
  else if 'A' ≤ c ∧ c ≤ 'F' then some (c.toNat - 'A'.toNat + 10)
  else none

/-- Model of Go net/url unescape in path mode: decode every percent
escape, failing on a malformed one; no characters are rejected. -/
def unescapePercent : List Char → Option (List Char)
  | [] => some []
  | '%' :: a :: b :: rest =>
    match hexVal a, hexVal b with
    | some x, some y => (unescapePercent rest).map (fun l => Char.ofNat (16 * x + y) :: l)
    | _, _ => none
  | '%' :: _ => none
  | c :: rest => (unescapePercent rest).map (fun l => c :: l)

/-- Model of the host-byte admissibility of Go net/url (shouldEscape in
host mode): ASCII letters and digits, the listed marks, and any byte at
or above 128 are admitted. -/
def hostCharOK (c : Char) : Bool :=
  ('a' ≤ c ∧ c ≤ 'z') ∨ ('A' ≤ c ∧ c ≤ 'Z') ∨ ('0' ≤ c ∧ c ≤ '9')
    ∨ c ∈ ['-', '.', '_', '~', '!', '$', '&', '\'', '(', ')', '*', '+', ',', ';', '=',
        ':', '[', ']', '<', '>', '"']
    ∨ 128 ≤ c.val

/-- Model of Go net/url unescape in host mode: every plain byte must be
admissible for a host, and a percent escape below 0x80 other than the
literal escape of the percent sign itself is rejected. -/
def hostUnescape : List Char → Option (List Char)
  | [] => some []
  | '%' :: a :: b :: rest =>
    match hexVal a, hexVal b with
    | some x, some y =>
      if x < 8 ∧ ¬(a = '2' ∧ b = '5') then none
      else (hostUnescape rest).map (fun l => Char.ofNat (16 * x + y) :: l)
    | _, _ => none
  | '%' :: _ => none
  | c :: rest => if hostCharOK c then (hostUnescape rest).map (fun l => c :: l) else none

/-- Model of Go net/url validOptionalPort: empty, or a colon followed by
zero or more decimal digits. -/
def validOptionalPort : List Char → Bool
  | [] => true
  | ':' :: rest => rest.all (fun c => '0' ≤ c ∧ c ≤ '9')
  | _ => false

/-- Split a list at the last occurrence of an element: the returned parts
surround that occurrence, and the second part is free of it. -/
def splitAtLastElem (sep : Char) : List Char → Option (List Char × List Char)
  | [] => none
  | c :: rest =>
    match splitAtLastElem sep rest with
    | some (b, a) => some (c :: b, a)
    | none => if c = sep then some ([], rest) else none

/-- Model of the character admissibility of Go net/url validUserinfo. -/
def validUserinfoChar (c : Char) : Bool :=
  ('a' ≤ c ∧ c ≤ 'z') ∨ ('A' ≤ c ∧ c ≤ 'Z') ∨ ('0' ≤ c ∧ c ≤ '9')
    ∨ c ∈ ['-', '.', '_', ':', '~', '!', '$', '&', '\'', '(', ')', '*', '+', ',', ';',
        '=', '%', '@']

/-- Every percent sign is followed by two hexadecimal digits. -/
def percentWellFormed : List Char → Bool
  | [] => true
  | '%' :: a :: b :: rest => (hexVal a).isSome && (hexVal b).isSome && percentWellFormed rest
  | '%' :: _ => false
  | _ :: rest => percentWellFormed rest

/-- Model of Go net/url parseHost: a bracketed host needs a closing
bracket and a valid optional port after it (its inside is admitted
unchecked, a simplification of the IPv6 zone handling no claim touches);
an unbracketed host needs a valid optional port after its last colon, and
is unescaped and validated bytewise. -/
def parseHost (hostport : List Char) : Option (List Char) :=
  match hostport with
  | '[' :: rest =>
    match splitAtLastElem ']' rest with
    | none => none
    | some (_, afterBracket) =>
      if validOptionalPort afterBracket then some hostport else none
  | _ =>
    match splitAtLastElem ':' hostport with
    | some (_, afterColon) =>
      if validOptionalPort (':' :: afterColon) then hostUnescape hostport else none
    | none => hostUnescape hostport

/-- Model of Go net/url parseAuthority: userinfo, when present before the
last at sign, must pass the userinfo character check and have well-formed
escapes; the remainder is parsed as the host. -/
def parseAuthority (authority : List Char) : Option (List Char) :=
  match splitAtLastElem '@' authority with
  | none => parseHost authority
  | some (userinfo, hostport) =>
    if userinfo.all validUserinfoChar && percentWellFormed userinfo then parseHost hostport
    else none

/-- Authority, path and raw query of the part following the scheme and
double slash: the authority runs to the first slash or question mark, the
path to the first question mark after it, the raw query is the rest. -/
def parseHostPathQuery (rest : List Char) : Option (List Char × List Char × List Char) :=
  match parseAuthority (rest.takeWhile (fun c => c ≠ '/' ∧ c ≠ '?')) with
  | none => none
  | some host =>
    match unescapePercent
        ((rest.dropWhile (fun c => c ≠ '/' ∧ c ≠ '?')).takeWhile (fun c => c ≠ '?')) with
    | none => none
    | some path =>
      some (host, path,
        ((rest.dropWhile (fun c => c ≠ '/' ∧ c ≠ '?')).dropWhile (fun c => c ≠ '?')).drop 1)

/-- The fields of a parsed URL used by proxyHandler of src/main.go. -/
structure GoURL where
  scheme : String
  host : String
  path : String
  rawQuery : String
deriving DecidableEq, Repr

/-- Parse of a fragment-stripped URL string: an absolute http or https
URL goes through the authority parse; anything else is modelled loosely
as a scheme-less relative reference (fixTargetURL never produces such an
input, and opaque scheme forms of Go net/url are not modelled). -/
def goParseNoFrag (l : List Char) : Option GoURL :=
  if hasPrefixList l ['h', 't', 't', 'p', ':', '/', '/'] then
    (parseHostPathQuery (l.drop 7)).map
      (fun t => ⟨"http", String.mk t.1, String.mk t.2.1, String.mk t.2.2⟩)
  else if hasPrefixList l ['h', 't', 't', 'p', 's', ':', '/', '/'] then
    (parseHostPathQuery (l.drop 8)).map
      (fun t => ⟨"https", String.mk t.1, String.mk t.2.1, String.mk t.2.2⟩)
  else
    (unescapePercent (l.takeWhile (fun c => c ≠ '?'))).map
      (fun p => ⟨"", "", String.mk p, String.mk ((l.dropWhile (fun c => c ≠ '?')).drop 1)⟩)

/-- Model of Go net/url.Parse as used by proxyHandler of src/main.go:
reject control characters, strip the fragment at the first hash sign, and
parse the rest. -/
def goParse (rawURL : String) : Option GoURL :=
  if hasCTL rawURL then none
  else goParseNoFrag (rawURL.data.takeWhile (fun c => c ≠ '#'))

/-- Embedding of the candidate construction of proxyHandler in
src/main.go: the request path with its leading slash removed, then a
question mark and the raw query when the query is nonempty. -/
def targetCandidate (reqPath rawQuery : String) : String :=
  if rawQuery ≠ "" then String.mk (reqPath.data.drop 1) ++ "?" ++ rawQuery
  else String.mk (reqPath.data.drop 1)

/-- Embedding of the target-URL pipeline of proxyHandler in src/main.go:
candidate construction, fixTargetURL, then the URL parse. -/
def targetOfRequest (reqPath rawQuery : String) : Option GoURL :=
  goParse (fixTargetURL (targetCandidate reqPath rawQuery))

/-- Prepending elements all satisfying the predicate commutes with
takeWhile. -/
theorem takeWhile_append_all (f : Char → Bool) (pre t : List Char)
    (h : ∀ c ∈ pre, f c = true) : (pre ++ t).takeWhile f = pre ++ t.takeWhile f := by
  induction pre with
  | nil => simp
  | cons c cs ih =>
    have hc : f c = true := h c (by simp)
    simp [List.takeWhile_cons, hc, ih (fun x hx => h x (by simp [hx]))]

/-- On inputs carrying an http or https scheme, a successful parse keeps
that scheme. -/
theorem goParseNoFrag_scheme (l : List Char) (u : GoURL)
    (hpre : hasPrefixList l ['h', 't', 't', 'p', ':', '/', '/'] = true
      ∨ hasPrefixList l ['h', 't', 't', 'p', 's', ':', '/', '/'] = true)
    (h : goParseNoFrag l = some u) : u.scheme = "http" ∨ u.scheme = "https" := by
  unfold goParseNoFrag at h
  by_cases h1 : hasPrefixList l ['h', 't', 't', 'p', ':', '/', '/'] = true
  · rw [if_pos h1] at h
    obtain ⟨t, _, rfl⟩ := Option.map_eq_some'.mp h
    left
    rfl
  · rw [if_neg h1] at h
    rcases hpre with hp | hp
    · exact absurd hp h1
    · rw [if_pos hp] at h
      obtain ⟨t, _, rfl⟩ := Option.map_eq_some'.mp h
      right
      rfl

/-- Claim C2 (amended): when normalization and parsing succeed, the
target URL carries a nonempty scheme, namely http or https. (The host
part of the original claim fails, see the counterexample.) -/
theorem claim2_targetURLScheme (reqPath rawQuery : String) (u : GoURL)
    (h : targetOfRequest reqPath rawQuery = some u) :
    u.scheme ≠ "" ∧ (u.scheme = "http" ∨ u.scheme = "https") := by
  have hs := fixTargetURL_scheme (targetCandidate reqPath rawQuery)
  unfold targetOfRequest goParse at h
  by_cases hctl : hasCTL (fixTargetURL (targetCandidate reqPath rawQuery)) = true
  · rw [if_pos hctl] at h
    cases h
  · rw [if_neg hctl] at h
    have hpre :
        hasPrefixList
            ((fixTargetURL (targetCandidate reqPath rawQuery)).data.takeWhile
              (fun c => c ≠ '#')) ['h', 't', 't', 'p', ':', '/', '/'] = true
        ∨ hasPrefixList
            ((fixTargetURL (targetCandidate reqPath rawQuery)).data.takeWhile
              (fun c => c ≠ '#')) ['h', 't', 't', 'p', 's', ':', '/', '/'] = true := by
      rcases hs with hs | hs
      · left
        unfold strStartsWith at hs
        rw [http_data] at hs
        obtain ⟨t, ht⟩ := (hasPrefixList_iff _ _).mp hs
        rw [ht, takeWhile_append_all _ _ _ (by decide)]
        exact hasPrefixList_append _ _
      · right
        unfold strStartsWith at hs
        rw [https_data] at hs
        obtain ⟨t, ht⟩ := (hasPrefixList_iff _ _).mp hs
        rw [ht, takeWhile_append_all _ _ _ (by decide)]
        exact hasPrefixList_append _ _
    have hsch := goParseNoFrag_scheme _ u hpre h
    refine ⟨?_, hsch⟩
    rcases hsch with hq | hq <;> simp [hq]

/-- Witness for C2 (amended): the root-embedded https target parses with
the https scheme. -/
theorem claim2_targetURLScheme_witness :
    (GoURL.mk "https" "example.com" "/p" "").scheme ≠ ""
    ∧ ((GoURL.mk "https" "example.com" "/p" "").scheme = "http"
        ∨ (GoURL.mk "https" "example.com" "/p" "").scheme = "https") :=
  claim2_targetURLScheme "/https://example.com/p" "" (GoURL.mk "https" "example.com" "/p" "")
    (by decide)

/-- Counterexample for C2 as stated: the inbound root request (path
slash, empty query) normalizes to the bare http scheme, which parses
successfully with an empty host, so a successful parse does not
guarantee a nonempty host. -/
theorem claim2_counterexample :
    targetOfRequest "/" "" = some (GoURL.mk "http" "" "" "")
    ∧ (GoURL.mk "http" "" "" "").host = "" :=
  ⟨by decide, rfl⟩

/-- A character of the cutset of the bytes.Trim call in src/main.go:
space, newline or carriage return. -/
def isCutChar (c : Char) : Bool := c = ' ' ∨ c = '\n' ∨ c = '\r'

/-- Model of Go bytes.Trim with that cutset: drop cutset characters from
both ends. -/
def trimCutset (l : List Char) : List Char :=
  ((l.dropWhile isCutChar).reverse.dropWhile isCutChar).reverse

/-- Model of Go strings.ToLower restricted to ASCII case folding, which
is all the header names compared in src/main.go need. -/
def lowerAscii (s : String) : String := String.mk (s.data.map Char.toLower)

/-- Model of Go bytes.Cut with a one-character separator: split at the
first occurrence, or report that none was found. -/
def cutByte (sep : Char) : List Char → Option (List Char × List Char)
  | [] => none
  | c :: cs =>
    if c = sep then some ([], cs)
    else
      match cutByte sep cs with
      | none => none
      | some (before, after) => some (c :: before, after)

/-- Model of Go bytes.Split with a one-character separator: n occurrences
of the separator yield n plus one pieces. -/
def splitOnChar (sep : Char) : List Char → List (List Char)
  | [] => [[]]
  | c :: cs =>
    if c = sep then [] :: splitOnChar sep cs
    else
      match splitOnChar sep cs with
      | [] => [[c]]
      | h :: t => (c :: h) :: t

/-- The first-occurrence cut expressed with takeWhile and dropWhile. -/
theorem cutByte_eq (sep : Char) (l : List Char) :
    cutByte sep l =
      if sep ∈ l then
        some (l.takeWhile (fun c => c ≠ sep), (l.dropWhile (fun c => c ≠ sep)).drop 1)
      else none := by
  induction l with
  | nil => simp [cutByte]
  | cons c cs ih =>
    by_cases hc : c = sep
    · subst hc
      simp [cutByte, List.takeWhile_cons, List.dropWhile_cons]
    · by_cases hmem : sep ∈ cs
      · simp [cutByte, ih, List.takeWhile_cons, List.dropWhile_cons, hc, hmem, Ne.symm hc]
      · simp [cutByte, ih, hc, hmem, Ne.symm hc]

/-- Embedding of the per-line body of addHeadersFromTxt of src/main.go:
cut the row at the first colon (rows without a colon contribute nothing),
trim spaces and CR and LF from both parts, and drop the pair when the
lower-cased name is content-length or transfer-encoding. -/
def parseHeaderLine (row : List Char) : Option (String × String) :=
  match cutByte ':' row with
  | none => none
  | some (before, after) =>
    if lowerAscii (String.mk (trimCutset before)) = "content-length"
        ∨ lowerAscii (String.mk (trimCutset before)) = "transfer-encoding" then none
    else some (String.mk (trimCutset before), String.mk (trimCutset after))

/-- Embedding of the loop of addHeadersFromTxt of src/main.go: split the
resource text into newline-separated rows, skip the first row, and
collect the headers of the remaining rows in order. -/
def parseHeaderLines (content : String) : List (String × String) :=
  ((splitOnChar '\n' content.data).drop 1).filterMap parseHeaderLine

/-- One header line as worded by the spec: for a line containing a colon,
split on the first colon into name and value, trim surrounding
whitespace and CR and LF from both, and exclude names whose lower-cased
form is content-length or transfer-encoding. -/
def specParseHeaderLine (line : List Char) : Option (String × String) :=
  if (':') ∈ line then
    if lowerAscii (String.mk (trimCutset (line.takeWhile (fun c => c ≠ ':')))) = "content-length"
        ∨ lowerAscii (String.mk (trimCutset (line.takeWhile (fun c => c ≠ ':')))) =
            "transfer-encoding" then
      none
    else
      some (String.mk (trimCutset (line.takeWhile (fun c => c ≠ ':'))),
        String.mk (trimCutset ((line.dropWhile (fun c => c ≠ ':')).drop 1)))
  else none

/-- Header-list parsing as worded by the spec: split into lines, never
apply the first line, and process each later line. -/
def specInjectedHeaders (content : String) : List (String × String) :=
  match splitOnChar '\n' content.data with
  | [] => []
  | _first :: rest => rest.filterMap specParseHeaderLine

/-- A single line is processed exactly as the spec words it. -/
theorem parseHeaderLine_eq (line : List Char) :
    parseHeaderLine line = specParseHeaderLine line := by
  unfold parseHeaderLine specParseHeaderLine
  rw [cutByte_eq]
  by_cases hmem : (':') ∈ line
  · simp [hmem]
  · simp [hmem]

/-- Embedding of the binding test of proxyHandler in src/main.go: the
binding domain equals the target host and the binding path-prefix starts
the target path. -/
def bindingMatches (b : CustomHeader) (host path : String) : Bool :=
  (b.domain == host) && strStartsWith path b.pathPrefixStr

/-- Embedding of the customHeaders scan of proxyHandler in src/main.go:
the first matching binding is applied and the loop breaks. -/
def selectCustomHeader (bindings : List CustomHeader) (host path : String) :
    Option CustomHeader :=
  bindings.find? (fun b => bindingMatches b host path)

/-- Embedding of addHeadersFromTxt of src/main.go, with the file system
as a partial map from paths to contents. The returned Boolean records
whether a read failure was logged; on failure the request headers are
returned untouched, otherwise the parsed headers are appended in line
order (Header.Add appends). -/
def addHeadersFromTxt (fs : String → Option String) (path : String)
    (reqHeaders : List (String × String)) : List (String × String) × Bool :=
  match fs path with
  | none => (reqHeaders, true)
  | some content => (reqHeaders ++ parseHeaderLines content, false)

/-- Claim C4: the header injector applies the first binding in list order
whose domain equals the target host and whose path-prefix starts the
target path; applying it splits the resource into lines, never applies
the first line, processes each later line containing a colon by cutting
at the first colon and trimming both parts, and never adds a header whose
lower-cased name is content-length or transfer-encoding. -/
theorem claim4_headerInjector (host path content : String)
    (pre post : List CustomHeader) (b : CustomHeader) :
    parseHeaderLines content = specInjectedHeaders content
    ∧ ((∀ x ∈ pre, bindingMatches x host path = false) →
        bindingMatches b host path = true →
        selectCustomHeader (pre ++ b :: post) host path = some b)
    ∧ (∀ nv ∈ parseHeaderLines content,
        lowerAscii nv.1 ≠ "content-length" ∧ lowerAscii nv.1 ≠ "transfer-encoding")
    ∧ (bindingMatches b host path = true ↔
        (b.domain = host ∧ strStartsWith path b.pathPrefixStr = true)) := by
  refine ⟨?_, ?_, ?_, ?_⟩
  · have hfun : parseHeaderLine = specParseHeaderLine := funext parseHeaderLine_eq
    unfold parseHeaderLines specInjectedHeaders
    rw [hfun]
    cases splitOnChar '\n' content.data with
    | nil => simp
    | cons first rest => simp
  · intro hpre hb
    unfold selectCustomHeader
    exact find_first_append _ _ _ _ hpre hb
  · intro nv hnv
    unfold parseHeaderLines at hnv
    rw [List.mem_filterMap] at hnv
    obtain ⟨line, _, hp⟩ := hnv
    unfold parseHeaderLine at hp
    revert hp
    cases cutByte ':' line with
    | none => simp
    | some ba =>
      obtain ⟨before, after⟩ := ba
      simp only []
      split_ifs with hg
      · simp
      · intro hp
        cases hp
        push_neg at hg
        exact hg
  · simp [bindingMatches, Bool.and_eq_true, beq_iff_eq]

/-- Witness for C4: a non-matching first binding is skipped and the
second binding, whose domain equals the host and whose prefix starts the
path, is selected; the parsed resource drops the first line and the
content-length line. -/
theorem claim4_headerInjector_witness :
    selectCustomHeader [⟨"a.com", "/", "h1"⟩, ⟨"b.com", "/", "h2"⟩] "b.com" "/x" =
        some ⟨"b.com", "/", "h2"⟩
    ∧ parseHeaderLines "# c\nX-Api-Key: abc123\nContent-Length: 99" =
        specInjectedHeaders "# c\nX-Api-Key: abc123\nContent-Length: 99" :=
  ⟨(claim4_headerInjector "b.com" "/x" "" [⟨"a.com", "/", "h1"⟩] []
      ⟨"b.com", "/", "h2"⟩).2.1 (by decide) (by decide),
    (claim4_headerInjector "b.com" "/x" "# c\nX-Api-Key: abc123\nContent-Length: 99" [] []
      ⟨"b.com", "/", "h2"⟩).1⟩

/-- Claim C8: when the header-list resource of the matching binding
cannot be read, the failure is logged and the request proceeds with its
headers untouched: no custom headers are injected and no error response
is produced. -/
theorem claim8_readFailureNonFatal (fs : String → Option String) (path : String)
    (reqHeaders : List (String × String)) (h : fs path = none) :
    addHeadersFromTxt fs path reqHeaders = (reqHeaders, true) := by
  unfold addHeadersFromTxt
  rw [h]

/-- Witness for C8: an unreadable resource leaves the request headers
unchanged and logs the failure. -/
theorem claim8_readFailureNonFatal_witness :
    addHeadersFromTxt (fun _ => none) "headers.txt" [("Accept", "x")] =
      ([("Accept", "x")], true) :=
  claim8_readFailureNonFatal (fun _ => none) "headers.txt" [("Accept", "x")] rfl

/-- Embedding of the header-copy loop of proxyHandler in src/main.go over
headers as maps from canonical key to value list (Go net/http Header):
every inbound key except Host, Connection and Content-Length has all its
values appended onto the outbound request. -/
def copyInboundHeaders (outbound inbound : String → List String) : String → List String :=
  fun k =>
    if k = "Host" ∨ k = "Connection" ∨ k = "Content-Length" then outbound k
    else outbound k ++ inbound k

/-- Model of Go Header.Set: the key gets exactly the one value, all other
keys are untouched. -/
def setHeader (h : String → List String) (key value : String) : String → List String :=
  fun k => if k = key then [value] else h k

/-- Embedding of the outbound-header construction of proxyHandler in
src/main.go: copy the inbound headers (minus the three skipped keys) onto
the outbound ones, then set X-Forwarded-For to the caller address. -/
def buildOutboundHeaders (outbound inbound : String → List String) (remoteAddr : String) :
    String → List String :=
  setHeader (copyInboundHeaders outbound inbound) "X-Forwarded-For" remoteAddr

/-- Claim C6: every inbound header except exactly Host, Connection and
Content-Length is copied with all its values onto the outbound request,
and X-Forwarded-For ends up holding exactly the caller remote address,
replacing any caller-supplied value. -/
theorem claim6_headerForwarding (outbound inbound : String → List String)
    (remoteAddr : String) (k : String) :
    (k ≠ "Host" → k ≠ "Connection" → k ≠ "Content-Length" → k ≠ "X-Forwarded-For" →
      buildOutboundHeaders outbound inbound remoteAddr k = outbound k ++ inbound k)
    ∧ ((k = "Host" ∨ k = "Connection" ∨ k = "Content-Length") →
      buildOutboundHeaders outbound inbound remoteAddr k = outbound k)
    ∧ buildOutboundHeaders outbound inbound remoteAddr "X-Forwarded-For" = [remoteAddr] := by
  refine ⟨?_, ?_, ?_⟩
  · intro h1 h2 h3 h4
    simp [buildOutboundHeaders, setHeader, copyInboundHeaders, h1, h2, h3, h4]
  · intro h
    rcases h with h | h | h <;> subst h <;>
      simp [buildOutboundHeaders, setHeader, copyInboundHeaders]
  · simp [buildOutboundHeaders, setHeader]

/-- Witness for C6: an ordinary inbound header is copied, a skipped key
is not, and X-Forwarded-For carries the remote address. -/
theorem claim6_headerForwarding_witness :
    buildOutboundHeaders (fun _ => []) (fun k => if k = "Accept" then ["x"] else [])
        "1.2.3.4" "Accept" = ["x"]
    ∧ buildOutboundHeaders (fun _ => []) (fun k => if k = "Accept" then ["x"] else [])
        "1.2.3.4" "Host" = []
    ∧ buildOutboundHeaders (fun _ => []) (fun k => if k = "Accept" then ["x"] else [])
        "1.2.3.4" "X-Forwarded-For" = ["1.2.3.4"] := by
  refine ⟨?_, ?_, ?_⟩
  · have h := (claim6_headerForwarding (fun _ => [])
      (fun k => if k = "Accept" then ["x"] else []) "1.2.3.4" "Accept").1
      (by decide) (by decide) (by decide) (by decide)
    simpa using h
  · exact (claim6_headerForwarding (fun _ => [])
      (fun k => if k = "Accept" then ["x"] else []) "1.2.3.4" "Host").2.1 (Or.inl rfl)
  · exact (claim6_headerForwarding (fun _ => [])
      (fun k => if k = "Accept" then ["x"] else []) "1.2.3.4" "").2.2

/-- Modelled from the spec: the request-identifier counter of the
dispatcher. The spec notes the source has two variants of about 580
lines together, while src holds only main.go; no request identifier
exists in src/main.go, so this component is modelled from the spec
wording: each inbound request atomically increments a process-wide
counter, receives the incremented value as its identifier, and the
identifier is written into the routing-decision log entry. -/
structure RoutingLogEntry where
  requestID : Nat
  decision : String
deriving DecidableEq, Repr

/-- Modelled from the spec: dispatching a sequence of requests (each
given by its routing-decision text) from a counter value yields, per
request, the assigned identifier paired with its routing log entry. -/
def dispatchAll (counter : Nat) : List String → List (Nat × RoutingLogEntry)
  | [] => []
  | d :: ds => (counter + 1, ⟨counter + 1, d⟩) :: dispatchAll (counter + 1) ds

/-- Every identifier assigned after a counter value exceeds it. -/
theorem dispatchAll_id_gt (counter : Nat) (ds : List String) :
    ∀ p ∈ dispatchAll counter ds, counter < p.1 := by
  induction ds generalizing counter with
  | nil => simp [dispatchAll]
  | cons d ds ih =>
    intro p hp
    simp only [dispatchAll, List.mem_cons] at hp
    rcases hp with rfl | hp
    · simp
    · exact Nat.lt_of_succ_lt (ih (counter + 1) p hp)

/-- Claim C7: within one process the assigned request identifiers are
strictly increasing in dispatch order (hence pairwise distinct), and each
routing-decision log entry carries exactly the identifier assigned to its
request. -/
theorem claim7_requestIDs (counter : Nat) (decisions : List String) :
    List.Pairwise (fun a b => a < b) ((dispatchAll counter decisions).map Prod.fst)
    ∧ (∀ p ∈ dispatchAll counter decisions, p.2.requestID = p.1) := by
  constructor
  · induction decisions generalizing counter with
    | nil => simp [dispatchAll]
    | cons d ds ih =>
      simp only [dispatchAll, List.map_cons, List.pairwise_cons]
      refine ⟨?_, ih (counter + 1)⟩
      intro b hb
      rw [List.mem_map] at hb
      obtain ⟨p, hp, rfl⟩ := hb
      exact dispatchAll_id_gt (counter + 1) ds p hp
  · induction decisions generalizing counter with
    | nil => simp [dispatchAll]
    | cons d ds ih =>
      intro p hp
      simp only [dispatchAll, List.mem_cons] at hp
      rcases hp with rfl | hp
      · rfl
      · exact ih (counter + 1) p hp

/-- Witness for C7: two dispatched requests receive the increasing
distinct identifiers one and two, and the first log entry carries its
request identifier. -/
theorem claim7_requestIDs_witness :
    List.Pairwise (fun a b => a < b) ((dispatchAll 0 ["direct", "proxyA"]).map Prod.fst)
    ∧ (1, RoutingLogEntry.mk 1 "direct") ∈ dispatchAll 0 ["direct", "proxyA"]
    ∧ (RoutingLogEntry.mk 1 "direct").requestID = 1 :=
  ⟨(claim7_requestIDs 0 ["direct", "proxyA"]).1, by decide,
    (claim7_requestIDs 0 ["direct", "proxyA"]).2 (1, RoutingLogEntry.mk 1 "direct")
      (by decide)⟩

/-- Claim C10: the empty string acts as a universal wildcard: an empty
directDomains entry makes every host (including the empty host) resolve
Direct, a rule with empty domain pattern matches any host not caught by
directDomains (so some rule is always returned then), and the empty
pattern is contained in every host string. -/
theorem claim10_emptyPatternWildcard (cfg : ProxyConfig) (host : String) :
    ("" ∈ cfg.directDomains → findProxyRule cfg host = none)
    ∧ (isDirect cfg host = false → (∃ r ∈ cfg.proxyRules, r.domain = "") →
        ∃ rule, findProxyRule cfg host = some rule)
    ∧ (∀ h : String, strContains h "" = true) := by
  refine ⟨?_, ?_, fun h => strContains_empty h⟩
  · intro hmem
    have hd : isDirect cfg host = true := by
      unfold isDirect
      exact List.any_eq_true.mpr ⟨"", hmem, strContains_empty host⟩
    simp [findProxyRule, hd]
  · intro hd hex
    obtain ⟨r, hr, hdom⟩ := hex
    have hpr : (fun rule => strContains host rule.domain) r = true := by
      simp [hdom, strContains_empty]
    have hsome : (cfg.proxyRules.find? (fun rule => strContains host rule.domain)).isSome :=
      List.find?_isSome.mpr ⟨r, hr, hpr⟩
    obtain ⟨rule, hfind⟩ := Option.isSome_iff_exists.mp hsome
    exact ⟨rule, by simp [findProxyRule, hd, hfind]⟩

/-- Witness for C10: an empty directDomains entry forces Direct, and an
empty rule pattern guarantees some rule is resolved for an unrelated
host. -/
theorem claim10_emptyPatternWildcard_witness :
    findProxyRule ⟨⟨"", "", "", ""⟩, [], [""], []⟩ "anything" = none
    ∧ (∃ rule,
        findProxyRule ⟨⟨"", "", "", ""⟩, [⟨"", "pAll", "", ""⟩], ["direct.com"], []⟩
          "whatever.net" = some rule) :=
  ⟨(claim10_emptyPatternWildcard _ _).1 (by decide),
    (claim10_emptyPatternWildcard _ _).2.1 (by decide)
      ⟨⟨"", "pAll", "", ""⟩, by decide, rfl⟩⟩
